import Mathlib

/-!
Verification of the OMR (Optical Mark Recognition) order pipeline.

This development shallowly embeds the order-extraction code of the
repository and proves the stated properties about it:

* the Mark / ProcessingResult data model;
* the per-mark grouping and order-line extraction of
  src/services/pythonOMRProcessor.js (extractOrderFromOMR);
* the engine wrapper processImage of the same file, with its filesystem
  interaction abstracted into an environment record and an effect trace;
* the POST /api/omr/process route handler of src/init.js (cleanup on
  failure);
* the confidence display computation of the frontend (showResults).

Numbers are modelled as rationals; JavaScript objects keyed by strings are
modelled as association lists in insertion order, matching the semantics
of property assignment and Object.entries.
-/

/-- One scored mark of the engine output JSON.  The source reads only the
fields type, item, isMarked and confidence of a mark; the remaining JSON
fields (position, pixel counts) are never consulted by the code under
verification and are omitted. -/
structure Mark where
  type : String
  item : String
  isMarked : Bool
  confidence : ℚ
  deriving DecidableEq, Repr

/-- The parsed engine result (the JSON printed by the detection engine).
Fields as in the ProcessingResult data model; the extractor reads success
and marks, the route forwards confidence, image_dimensions,
total_marks_detected and marked_items. -/
structure ProcessingData where
  success : Bool
  marks : List Mark
  confidence : ℚ
  image_dimensions : ℕ × ℕ
  total_marks_detected : ℕ
  marked_items : List String
  deriving DecidableEq, Repr

/-- Return value of processImage: on success the parsed data, on failure
an error message and data = none. -/
structure WrapperResult where
  success : Bool
  data : Option ProcessingData
  error : Option String
  deriving DecidableEq, Repr

/-- One order line produced by extractOrderFromOMR. -/
structure OrderLine where
  item_name : String
  quantity : ℕ
  confidence : ℚ
  deriving DecidableEq, Repr

/-- Return value of extractOrderFromOMR. -/
structure OrderResult where
  success : Bool
  orderItems : List OrderLine
  omrData : Option ProcessingData
  error : Option String
  deriving DecidableEq, Repr

/-- The per-item group built by the forEach loop: the JS object
itemGroups[item] with its quantity and selection slots.  Marks of any
other type string are also written into the JS object but are never read
back; storing them would not change any observable value. -/
structure ItemGroup where
  quantity : Option Mark := none
  selection : Option Mark := none
  deriving DecidableEq, Repr

/-- itemGroups[mark.item][mark.type] = mark : write the mark into the slot
named by its type.  A type string other than quantity / selection creates
a property the later loop never reads; it is dropped here. -/
def storeMark (g : ItemGroup) (m : Mark) : ItemGroup :=
  if m.type = "quantity" then { g with quantity := some m }
  else if m.type = "selection" then { g with selection := some m }
  else g

/-- One step of the forEach loop over marks: find (or append) the group of
m.item in the association list and store the mark in it.  JS object keys
keep insertion order, so a fresh item is appended at the end. -/
def insertMark (gs : List (String × ItemGroup)) (m : Mark) :
    List (String × ItemGroup) :=
  match gs with
  | [] => [(m.item, storeMark {} m)]
  | (k, g) :: rest =>
    if k = m.item then (k, storeMark g m) :: rest
    else (k, g) :: insertMark rest m

/-- The grouping pass of extractOrderFromOMR (lines 142-148 of
src/services/pythonOMRProcessor.js). -/
def groupMarks (marks : List Mark) : List (String × ItemGroup) :=
  marks.foldl insertMark []

/-- Math.min on two (non-NaN) numbers. -/
def jsMathMin (a b : ℚ) : ℚ := if a ≤ b then a else b

/-- The body of the per-item loop (lines 151-167): an order line is pushed
iff the selection mark exists and is marked; the quantity is 1 in either
arm of the conditional; the confidence is the minimum of the selection
confidence and the quantity confidence (1.0 when no quantity mark). -/
def lineOfGroup (itemName : String) (g : ItemGroup) : Option OrderLine :=
  match g.selection with
  | none => none
  | some sel =>
    if sel.isMarked then
      some
        { item_name := itemName
          quantity := if (g.quantity.map (·.isMarked)).getD false then 1 else 1
          confidence :=
            jsMathMin sel.confidence
              (match g.quantity with
               | some q => q.confidence
               | none => 1) }
    else none

/-- The per-item loop over Object.entries(itemGroups), collecting the
pushed order lines in iteration order. -/
def extractLines (gs : List (String × ItemGroup)) : List OrderLine :=
  gs.filterMap (fun p => lineOfGroup p.1 p.2)

/-- JavaScript a || b on a possibly-absent string: undefined and the empty
string are falsy. -/
def jsOrDefault : Option String → String → String
  | some s, d => if s = "" then d else s
  | none, d => d

/-- The pure part of extractOrderFromOMR, as a function of the processImage
result: the success checks, the grouping, the per-item loop, and the catch
branch mapping any thrown error to a failure object. -/
def extractOrder (r : WrapperResult) : OrderResult :=
  if r.success then
    match r.data with
    | some d =>
      if d.success then
        { success := true
          orderItems := extractLines (groupMarks d.marks)
          omrData := some d
          error := none }
      else
        { success := false, orderItems := [], omrData := none
          error := some (jsOrDefault r.error "OMR processing failed") }
    | none =>
      -- result.data.success on null throws a TypeError, caught below;
      -- processImage never actually returns success with data = none.
      { success := false, orderItems := [], omrData := none
        error := some "Cannot read properties of null (reading success)" }
  else
    { success := false, orderItems := [], omrData := none
      error := some (jsOrDefault r.error "OMR processing failed") }

example :
    (extractOrder
      { success := true
        data := some
          { success := true
            marks := [⟨"selection", "egg", true, mkRat 9 10⟩,
                      ⟨"quantity", "egg", false, mkRat 3 10⟩]
            confidence := 60
            image_dimensions := (800, 600)
            total_marks_detected := 1
            marked_items := ["egg"] }
        error := none }).orderItems
      = [⟨"egg", 1, mkRat 3 10⟩] := by decide

example :
    extractOrder { success := false, data := none, error := some "" } =
      { success := false, orderItems := [], omrData := none
        error := some "OMR processing failed" } := by decide

/-- Abstraction of the world processImage interacts with: whether the file
at a path is accessible, what the engine process prints for a path (or how
it fails), and how JSON.parse interprets that output (or the message of the
SyntaxError it throws). -/
structure FSEnv where
  fileExists : String → Bool
  runScript : String → Except String String
  parseJSON : String → Except String ProcessingData

/-- Filesystem-visible actions performed by the code under verification. -/
inductive FSEffect where
  | access (path : String)
  | spawnRead (path : String)
  | unlink (path : String)
  deriving DecidableEq, Repr

/-- Message of the rejection of fs.access on a missing path (Node ENOENT). -/
def accessErrorMessage (p : String) : String :=
  "ENOENT: no such file or directory, access " ++ p

/-- processImage (src/services/pythonOMRProcessor.js lines 98-128): check
the file exists, run the engine script on it, parse its stdout as JSON;
the surrounding try/catch turns every raised error into
a failure object with success = false, the error message, and data = null.
The second component records the filesystem actions taken. -/
def processImage (env : FSEnv) (imagePath : String) :
    WrapperResult × List FSEffect :=
  if env.fileExists imagePath then
    (match (env.runScript imagePath).bind env.parseJSON with
     | .error e => { success := false, data := none, error := some e }
     | .ok d => { success := true, data := some d, error := none },
     [.access imagePath, .spawnRead imagePath])
  else
    ({ success := false, data := none
       error := some (accessErrorMessage imagePath) },
     [.access imagePath])

/-- extractOrderFromOMR (lines 130-184): processImage followed by the pure
extraction; it performs no filesystem actions of its own. -/
def extractOrderFromOMR (env : FSEnv) (imagePath : String) :
    OrderResult × List FSEffect :=
  ((extractOrder (processImage env imagePath).1),
   (processImage env imagePath).2)

/-- Response of the POST /api/omr/process handler, with the fields the
claims consult; the success payload carries the forwarded engine data. -/
structure RouteResponse where
  status : ℕ
  success : Bool
  data : Option ProcessingData := none
  error : Option String := none
  message : Option String := none
  deriving DecidableEq, Repr

/-- The POST /api/omr/process handler of src/init.js (after the upload
middleware stored the file at imagePath): when the processor is ready it
calls processImage; a failed result makes the try block throw, and the
catch handler unlinks the uploaded file and answers 500 with
success = false.  On success it answers 200 forwarding the engine data. -/
def omrProcessRoute (ready : Bool) (env : FSEnv) (imagePath : String) :
    RouteResponse × List FSEffect :=
  if ready then
    let r := (processImage env imagePath).1
    let eff := (processImage env imagePath).2
    if r.success then
      match r.data with
      | some d =>
        ({ status := 200, success := true, data := some d
           message := some
             "OMR processing completed successfully using Python OpenCV" },
         eff)
      | none =>
        -- reading result.marks on null throws; unreachable from processImage
        ({ status := 500, success := false
           error := some "OMR processing failed"
           message := some "Cannot read properties of null (reading marks)" },
         eff ++ [.unlink imagePath])
    else
      ({ status := 500, success := false
         error := some "OMR processing failed"
         message := some ("Python processing failed: "
           ++ (r.error.getD "undefined")) },
       eff ++ [.unlink imagePath])
  else
    ({ status := 500, success := false
       error := some "OMR processing failed"
       message := some "Python OMR processor not available" },
     [.unlink imagePath])

/-- Math.round for a (non-NaN) number: the half-way case rounds toward
positive infinity. -/
def jsMathRound (q : ℚ) : ℤ := (q + 1/2).floor

/-- The confidence display of showResults (src/unnamed/part_001 line 202):
const confidencePercent = Math.round(data.confidence * 100). -/
def confidencePercent (confidence : ℚ) : ℤ := jsMathRound (confidence * 100)

/-- Modelled from the spec: the Result Aggregator of the detection engine
(src/python/omr_processor.py, which is not under src/) computes the overall
confidence of a ProcessingResult as the mean of all per-Mark confidences
scaled by 100, i.e. on a 0-100 percentage scale. -/
def aggregateConfidence (marks : List Mark) : ℚ :=
  100 * ((marks.map (·.confidence)).sum / marks.length)

example : (processImage ⟨fun _ => false, fun _ => .error "", fun _ => .error ""⟩ "a.jpg").1.success = false := by decide

/-! Helper notions used to state and prove the claims. -/

/-- Lookup of the group of item X in the association list (the JS property
read itemGroups[X]). -/
def groupFind (gs : List (String × ItemGroup)) (X : String) :
    Option ItemGroup :=
  (gs.find? (fun p => p.1 == X)).map (·.2)

/-- The last mark in list order with the given item and type. -/
def lastMarkOf (marks : List Mark) (X ty : String) : Option Mark :=
  (marks.filter (fun m => m.item == X && m.type == ty)).getLast?

/-- The slot of an item group addressed by a type string (meaningful for
the two type strings the loop reads back). -/
def typeSlot (g : ItemGroup) (ty : String) : Option Mark :=
  if ty = "quantity" then g.quantity else g.selection

/-- The slot of type ty in the group of item X after grouping. -/
def groupSlot (marks : List Mark) (X ty : String) : Option Mark :=
  (groupFind (groupMarks marks) X).bind (fun g => typeSlot g ty)

/-- The confidence contributed by the quantity mark of item X: its own
confidence when present, 1.0 otherwise. -/
def quantityConfOf (marks : List Mark) (X : String) : ℚ :=
  match lastMarkOf marks X "quantity" with
  | some q => q.confidence
  | none => 1

theorem typeSlot_storeMark (g : ItemGroup) (m : Mark) (ty : String)
    (hty : ty = "quantity" ∨ ty = "selection") :
    typeSlot (storeMark g m) ty =
      if m.type = ty then some m else typeSlot g ty := by
  rcases hty with h | h <;> subst h <;>
    simp only [typeSlot, storeMark, if_true] <;> split_ifs <;> simp_all

theorem typeSlot_getD (o : Option ItemGroup) (ty : String) :
    typeSlot (o.getD {}) ty = o.bind (fun g => typeSlot g ty) := by
  cases o <;> simp [typeSlot]

theorem groupFind_nil (X : String) : groupFind [] X = none := rfl

theorem groupFind_cons (k : String) (g : ItemGroup)
    (rest : List (String × ItemGroup)) (X : String) :
    groupFind ((k, g) :: rest) X =
      if k = X then some g else groupFind rest X := by
  by_cases h : k = X
  · simp [groupFind, List.find?_cons_of_pos, h]
  · simp [groupFind, List.find?_cons_of_neg, h]

theorem insertMark_cons (k : String) (g : ItemGroup)
    (rest : List (String × ItemGroup)) (m : Mark) :
    insertMark ((k, g) :: rest) m =
      if k = m.item then (k, storeMark g m) :: rest
      else (k, g) :: insertMark rest m := rfl

theorem groupFind_insertMark (gs : List (String × ItemGroup)) (m : Mark)
    (X : String) :
    groupFind (insertMark gs m) X =
      if m.item = X then some (storeMark ((groupFind gs X).getD {}) m)
      else groupFind gs X := by
  induction gs with
  | nil =>
    show groupFind [(m.item, storeMark {} m)] X = _
    rw [groupFind_cons]
    by_cases h : m.item = X <;> simp [h, groupFind_nil]
  | cons p rest ih =>
    obtain ⟨k, g⟩ := p
    rw [insertMark_cons]
    by_cases hk : k = m.item
    · rw [if_pos hk]
      by_cases hX : k = X
      · have hmX : m.item = X := hk ▸ hX
        rw [groupFind_cons, if_pos hX, if_pos hmX, groupFind_cons,
          if_pos hX]
        rfl
      · have hmX : ¬ m.item = X := fun h => hX (hk.trans h)
        rw [groupFind_cons, if_neg hX, if_neg hmX, groupFind_cons,
          if_neg hX]
    · rw [if_neg hk]
      by_cases hX : k = X
      · have hmX : ¬ m.item = X := fun h => hk (hX.trans h.symm)
        rw [groupFind_cons, if_pos hX, if_neg hmX, groupFind_cons,
          if_pos hX]
      · rw [groupFind_cons, if_neg hX, ih, groupFind_cons, if_neg hX]

theorem slot_insertMark (gs : List (String × ItemGroup)) (m : Mark)
    (X ty : String) (hty : ty = "quantity" ∨ ty = "selection") :
    (groupFind (insertMark gs m) X).bind (fun g => typeSlot g ty) =
      if m.item = X ∧ m.type = ty then some m
      else (groupFind gs X).bind (fun g => typeSlot g ty) := by
  rw [groupFind_insertMark]
  by_cases hX : m.item = X
  · rw [if_pos hX, Option.some_bind, typeSlot_storeMark _ _ _ hty,
      typeSlot_getD]
    by_cases hT : m.type = ty
    · rw [if_pos hT, if_pos ⟨hX, hT⟩]
    · rw [if_neg hT, if_neg (fun h => hT h.2)]
  · rw [if_neg hX, if_neg (fun h => hX h.1)]

theorem getLast?_cons_or {α : Type} (a : α) (l : List α) :
    (a :: l).getLast? = l.getLast?.or (some a) := by
  induction l generalizing a with
  | nil => rfl
  | cons b t ih =>
    rw [List.getLast?_cons_cons, ih b]
    cases t.getLast? <;> rfl

theorem lastMarkOf_cons (m : Mark) (rest : List Mark) (X ty : String) :
    lastMarkOf (m :: rest) X ty =
      (lastMarkOf rest X ty).or
        (if m.item = X ∧ m.type = ty then some m else none) := by
  unfold lastMarkOf
  by_cases h : m.item = X ∧ m.type = ty
  · rw [List.filter_cons_of_pos (by simp [h.1, h.2]), getLast?_cons_or,
      if_pos h]
  · rw [List.filter_cons_of_neg (by simpa using h), if_neg h]
    cases (List.filter (fun m => m.item == X && m.type == ty) rest).getLast?
      <;> rfl

theorem slot_foldl (marks : List Mark) (gs : List (String × ItemGroup))
    (X ty : String) (hty : ty = "quantity" ∨ ty = "selection") :
    (groupFind (marks.foldl insertMark gs) X).bind (fun g => typeSlot g ty)
      = (lastMarkOf marks X ty).or
          ((groupFind gs X).bind (fun g => typeSlot g ty)) := by
  induction marks generalizing gs with
  | nil =>
    show (groupFind gs X).bind _ = (Option.or none _)
    rfl
  | cons m rest ih =>
    rw [List.foldl_cons, ih (insertMark gs m),
      slot_insertMark _ _ _ _ hty, lastMarkOf_cons]
    cases lastMarkOf rest X ty with
    | some x => rfl
    | none =>
      by_cases hP : m.item = X ∧ m.type = ty
      · rw [if_pos hP, if_pos hP]; rfl
      · rw [if_neg hP, if_neg hP]; rfl

theorem groupSlot_eq_lastMarkOf (marks : List Mark) (X ty : String)
    (hty : ty = "quantity" ∨ ty = "selection") :
    groupSlot marks X ty = lastMarkOf marks X ty := by
  unfold groupSlot groupMarks
  rw [slot_foldl _ _ _ _ hty, groupFind_nil]
  cases lastMarkOf marks X ty <;> rfl

theorem keys_insertMark (gs : List (String × ItemGroup)) (m : Mark) :
    (insertMark gs m).map Prod.fst =
      if m.item ∈ gs.map Prod.fst then gs.map Prod.fst
      else gs.map Prod.fst ++ [m.item] := by
  induction gs with
  | nil => simp [insertMark]
  | cons p rest ih =>
    obtain ⟨k, g⟩ := p
    rw [insertMark_cons]
    by_cases hk : k = m.item
    · rw [if_pos hk]
      simp [hk.symm]
    · rw [if_neg hk, List.map_cons, ih, List.map_cons]
      by_cases hm : m.item ∈ rest.map Prod.fst
      · rw [if_pos hm, if_pos (List.mem_cons_of_mem _ hm)]
      · have hnotin : m.item ∉ k :: rest.map Prod.fst := by
          intro hcon
          rcases List.mem_cons.mp hcon with h | h
          · exact hk h.symm
          · exact hm h
        rw [if_neg hm, if_neg hnotin, List.cons_append]

theorem keys_nodup_insertMark (gs : List (String × ItemGroup)) (m : Mark)
    (h : (gs.map Prod.fst).Nodup) :
    ((insertMark gs m).map Prod.fst).Nodup := by
  rw [keys_insertMark]
  by_cases hm : m.item ∈ gs.map Prod.fst
  · rwa [if_pos hm]
  · rw [if_neg hm]
    refine h.append (List.nodup_singleton _) ?_
    intro a ha hb
    rw [List.mem_singleton] at hb
    exact hm (hb ▸ ha)

theorem keys_nodup_foldl (marks : List Mark) :
    ∀ gs : List (String × ItemGroup), (gs.map Prod.fst).Nodup →
      ((marks.foldl insertMark gs).map Prod.fst).Nodup := by
  induction marks with
  | nil => intro gs h; simpa using h
  | cons m rest ih =>
    intro gs h
    rw [List.foldl_cons]
    exact ih _ (keys_nodup_insertMark _ _ h)

theorem keys_nodup_groupMarks (marks : List Mark) :
    ((groupMarks marks).map Prod.fst).Nodup :=
  keys_nodup_foldl marks [] (by simp)

theorem groupFind_eq_of_mem (gs : List (String × ItemGroup)) (X : String)
    (g : ItemGroup) (hnd : (gs.map Prod.fst).Nodup)
    (hmem : (X, g) ∈ gs) : groupFind gs X = some g := by
  induction gs with
  | nil => cases hmem
  | cons p rest ih =>
    obtain ⟨k, g'⟩ := p
    rw [groupFind_cons]
    rw [List.map_cons, List.nodup_cons] at hnd
    rcases List.mem_cons.mp hmem with h | h
    · injection h with h1 h2
      rw [if_pos h1.symm, h2]
    · by_cases hk : k = X
      · exact absurd
          (by rw [hk]; exact List.mem_map.mpr ⟨(X, g), h, rfl⟩) hnd.1
      · rw [if_neg hk]
        exact ih hnd.2 h

theorem mem_of_groupFind (gs : List (String × ItemGroup)) (X : String)
    (g : ItemGroup) (h : groupFind gs X = some g) : (X, g) ∈ gs := by
  unfold groupFind at h
  rw [Option.map_eq_some'] at h
  obtain ⟨p, hp, hg⟩ := h
  have hmem := List.mem_of_find?_eq_some hp
  have hpX : p.1 = X := by
    have := List.find?_some hp
    simpa using this
  have : p = (X, g) := by
    obtain ⟨p1, p2⟩ := p
    simp only at hpX hg
    rw [hpX, hg]
  exact this ▸ hmem

/-- The confidence argument the loop passes to Math.min for a group. -/
def groupQtyConf (g : ItemGroup) : ℚ :=
  match g.quantity with
  | some q => q.confidence
  | none => 1

theorem typeSlot_selection (g : ItemGroup) :
    typeSlot g "selection" = g.selection := rfl

theorem typeSlot_quantity (g : ItemGroup) :
    typeSlot g "quantity" = g.quantity := rfl

theorem lineOfGroup_eq_some (k : String) (g : ItemGroup) (l : OrderLine) :
    lineOfGroup k g = some l ↔
      ∃ sel, g.selection = some sel ∧ sel.isMarked = true ∧
        l = ⟨k, 1, jsMathMin sel.confidence (groupQtyConf g)⟩ := by
  cases hsel : g.selection with
  | none => simp [lineOfGroup, hsel]
  | some sel =>
    by_cases hm : sel.isMarked = true
    · simp only [lineOfGroup, hsel, if_pos hm, Option.some_inj]
      constructor
      · intro h
        exact ⟨sel, rfl, hm, by rw [← h, ite_self]; rfl⟩
      · rintro ⟨sel', hsel', hm', rfl⟩
        rw [← hsel', ite_self]
        rfl
    · simp only [lineOfGroup, hsel, if_neg hm]
      constructor
      · intro h; cases h
      · rintro ⟨sel', hsel', hm', rfl⟩
        injection hsel' with h
        exact absurd (h.symm ▸ hm') hm

theorem mem_extractLines (gs : List (String × ItemGroup)) (l : OrderLine) :
    l ∈ extractLines gs ↔ ∃ p ∈ gs, lineOfGroup p.1 p.2 = some l := by
  simp [extractLines, List.mem_filterMap]

theorem groupQtyConf_eq (marks : List Mark) (X : String) (g : ItemGroup)
    (hfind : groupFind (groupMarks marks) X = some g) :
    groupQtyConf g = quantityConfOf marks X := by
  have hq : g.quantity = lastMarkOf marks X "quantity" := by
    have h := groupSlot_eq_lastMarkOf marks X "quantity" (Or.inl rfl)
    unfold groupSlot at h
    rw [hfind, Option.some_bind, typeSlot_quantity] at h
    exact h
  unfold groupQtyConf quantityConfOf
  rw [hq]

/-- Full characterization of the extracted lines: an order line with a
given item name is in the output exactly when the last selection mark of
that item is marked, and then its fields are determined by the last
selection and quantity marks of the item. -/
theorem mem_orderItems_iff (marks : List Mark) (X : String)
    (l : OrderLine) :
    (l ∈ extractLines (groupMarks marks) ∧ l.item_name = X) ↔
      ∃ sel, lastMarkOf marks X "selection" = some sel ∧
        sel.isMarked = true ∧
        l = ⟨X, 1, jsMathMin sel.confidence (quantityConfOf marks X)⟩ := by
  constructor
  · rintro ⟨hl, hX⟩
    rw [mem_extractLines] at hl
    obtain ⟨⟨k, g⟩, hmem, hline⟩ := hl
    rw [lineOfGroup_eq_some] at hline
    obtain ⟨sel, hsel, hm, rfl⟩ := hline
    have hkX : k = X := hX
    subst hkX
    have hfind : groupFind (groupMarks marks) k = some g :=
      groupFind_eq_of_mem _ _ _ (keys_nodup_groupMarks marks) hmem
    have hslot : lastMarkOf marks k "selection" = some sel := by
      rw [← groupSlot_eq_lastMarkOf marks k "selection" (Or.inr rfl)]
      unfold groupSlot
      rw [hfind, Option.some_bind, typeSlot_selection, hsel]
    exact ⟨sel, hslot, hm, by rw [groupQtyConf_eq marks k g hfind]⟩
  · rintro ⟨sel, hlast, hm, rfl⟩
    have hslot : groupSlot marks X "selection" = some sel := by
      rw [groupSlot_eq_lastMarkOf marks X "selection" (Or.inr rfl)]
      exact hlast
    unfold groupSlot at hslot
    rw [Option.bind_eq_some] at hslot
    obtain ⟨g, hfind, hsel⟩ := hslot
    rw [typeSlot_selection] at hsel
    have hmem := mem_of_groupFind _ _ _ hfind
    refine ⟨?_, rfl⟩
    rw [mem_extractLines]
    refine ⟨(X, g), hmem, ?_⟩
    rw [lineOfGroup_eq_some]
    exact ⟨sel, hsel, hm, by rw [groupQtyConf_eq marks X g hfind]⟩

theorem quantity_of_mem_extractLines (gs : List (String × ItemGroup))
    (l : OrderLine) (h : l ∈ extractLines gs) : l.quantity = 1 := by
  rw [mem_extractLines] at h
  obtain ⟨p, _, hline⟩ := h
  rw [lineOfGroup_eq_some] at hline
  obtain ⟨sel, _, _, rfl⟩ := hline
  rfl

/-- Two marks agree except possibly in the isMarked flag of marks of type
quantity. -/
def MarkAgreesButQtyFlag (m m' : Mark) : Prop :=
  m.item = m'.item ∧ m.type = m'.type ∧ m.confidence = m'.confidence ∧
    (m.type ≠ "quantity" → m.isMarked = m'.isMarked)

/-- Two marks lists differ only in the isMarked flags of quantity-type
marks. -/
def SameButQtyFlags (ms ms' : List Mark) : Prop :=
  List.Forall₂ MarkAgreesButQtyFlag ms ms'

/-- Two group entries with the same key and the same selection slot. -/
def GroupAgrees (p q : String × ItemGroup) : Prop :=
  p.1 = q.1 ∧ p.2.selection = q.2.selection

theorem eq_of_markAgrees_of_ne_qty (m m' : Mark)
    (hm : MarkAgreesButQtyFlag m m') (hne : m.type ≠ "quantity") :
    m = m' := by
  obtain ⟨hi, ht, hc, hb⟩ := hm
  obtain ⟨t, i, b, c⟩ := m
  obtain ⟨t', i', b', c'⟩ := m'
  simp only at hi ht hc hb hne
  rw [hi, ht, hc, hb hne]

theorem storeMark_selection_rel (g g' : ItemGroup) (m m' : Mark)
    (hg : g.selection = g'.selection) (hm : MarkAgreesButQtyFlag m m') :
    (storeMark g m).selection = (storeMark g' m').selection := by
  have ht : m.type = m'.type := hm.2.1
  unfold storeMark
  by_cases h1 : m.type = "quantity"
  · rw [if_pos h1, if_pos (ht ▸ h1)]
    exact hg
  · rw [if_neg h1, if_neg (fun hh => h1 (ht.trans hh))]
    by_cases h2 : m.type = "selection"
    · rw [if_pos h2, if_pos (ht ▸ h2)]
      rw [eq_of_markAgrees_of_ne_qty m m' hm h1]
    · rw [if_neg h2, if_neg (fun hh => h2 (ht.trans hh))]
      exact hg

theorem insertMark_rel (m m' : Mark) (hm : MarkAgreesButQtyFlag m m') :
    ∀ gs gs', List.Forall₂ GroupAgrees gs gs' →
      List.Forall₂ GroupAgrees (insertMark gs m) (insertMark gs' m') := by
  intro gs gs' h
  induction h with
  | nil =>
    refine List.Forall₂.cons ⟨hm.1, ?_⟩ List.Forall₂.nil
    exact storeMark_selection_rel _ _ _ _ rfl hm
  | cons hpq _ ih =>
    rename_i p q rest rest' _
    obtain ⟨k, g⟩ := p
    obtain ⟨k', g'⟩ := q
    obtain ⟨hk, hgsel⟩ := hpq
    simp only at hk hgsel
    rw [insertMark_cons, insertMark_cons]
    by_cases h1 : k = m.item
    · rw [if_pos h1, if_pos (by rw [← hk, ← hm.1]; exact h1)]
      exact List.Forall₂.cons
        ⟨hk, storeMark_selection_rel _ _ _ _ hgsel hm⟩
        (by assumption)
    · rw [if_neg h1, if_neg (by rw [← hk, ← hm.1]; exact h1)]
      exact List.Forall₂.cons ⟨hk, hgsel⟩ ih

theorem foldl_rel (ms ms' : List Mark) (h : SameButQtyFlags ms ms') :
    ∀ gs gs', List.Forall₂ GroupAgrees gs gs' →
      List.Forall₂ GroupAgrees (ms.foldl insertMark gs)
        (ms'.foldl insertMark gs') := by
  induction h with
  | nil => intro gs gs' h; simpa using h
  | cons hm _ ih =>
    intro gs gs' hg
    rw [List.foldl_cons, List.foldl_cons]
    exact ih _ _ (insertMark_rel _ _ hm _ _ hg)

theorem groupMarks_rel (ms ms' : List Mark) (h : SameButQtyFlags ms ms') :
    List.Forall₂ GroupAgrees (groupMarks ms) (groupMarks ms') :=
  foldl_rel ms ms' h [] [] List.Forall₂.nil

theorem extractLines_cons (k : String) (g : ItemGroup)
    (rest : List (String × ItemGroup)) :
    extractLines ((k, g) :: rest) =
      match lineOfGroup k g with
      | some l => l :: extractLines rest
      | none => extractLines rest := by
  show List.filterMap _ _ = _
  rw [List.filterMap_cons]
  cases lineOfGroup k g <;> rfl

theorem extractLines_rel (gs gs' : List (String × ItemGroup))
    (h : List.Forall₂ GroupAgrees gs gs') :
    (extractLines gs).map (fun l => (l.item_name, l.quantity)) =
      (extractLines gs').map (fun l => (l.item_name, l.quantity)) := by
  induction h with
  | nil => rfl
  | cons hpq _ ih =>
    rename_i p q rest rest' _
    obtain ⟨k, g⟩ := p
    obtain ⟨k', g'⟩ := q
    obtain ⟨hk, hgsel⟩ := hpq
    simp only at hk hgsel
    rw [extractLines_cons, extractLines_cons]
    cases hsel : g.selection with
    | none =>
      have hsel' : g'.selection = none := by rw [← hgsel, hsel]
      simp only [lineOfGroup, hsel, hsel']
      exact ih
    | some sel =>
      have hsel' : g'.selection = some sel := by rw [← hgsel, hsel]
      by_cases hmk : sel.isMarked = true
      · have hline : lineOfGroup k g =
            some ⟨k, 1, jsMathMin sel.confidence (groupQtyConf g)⟩ := by
          rw [lineOfGroup_eq_some]
          exact ⟨sel, hsel, hmk, rfl⟩
        have hline' : lineOfGroup k' g' =
            some ⟨k', 1, jsMathMin sel.confidence (groupQtyConf g')⟩ := by
          rw [lineOfGroup_eq_some]
          exact ⟨sel, hsel', hmk, rfl⟩
        rw [hline, hline']
        simp only [List.map_cons]
        rw [ih, hk]
      · simp only [lineOfGroup, hsel, hsel', if_neg hmk]
        exact ih


/-- The processImage result wrapping a successfully parsed engine
output. -/
def okWrapper (d : ProcessingData) : WrapperResult :=
  { success := true, data := some d, error := none }

theorem jsMathMin_eq_min (a b : ℚ) : jsMathMin a b = min a b := by
  rw [jsMathMin, min_def]

theorem extractOrder_success (d : ProcessingData) (hd : d.success = true) :
    extractOrder (okWrapper d) =
      { success := true, orderItems := extractLines (groupMarks d.marks)
        omrData := some d, error := none } := by
  unfold extractOrder okWrapper
  rw [if_pos rfl]
  simp only [hd, if_pos]

theorem mem_of_getLast?_eq_some {α : Type} {l : List α} {a : α}
    (h : l.getLast? = some a) : a ∈ l := by
  induction l with
  | nil => cases h
  | cons b t ih =>
    rw [getLast?_cons_or] at h
    cases ht : t.getLast? with
    | none =>
      rw [ht] at h
      injection h with h
      exact h ▸ List.mem_cons_self b t
    | some c =>
      rw [ht] at h
      injection h with h
      exact List.mem_cons_of_mem b (ih (h ▸ ht))

theorem lastMarkOf_mem (marks : List Mark) (X ty : String) (m : Mark)
    (h : lastMarkOf marks X ty = some m) :
    m ∈ marks ∧ m.item = X ∧ m.type = ty := by
  unfold lastMarkOf at h
  have hmem := mem_of_getLast?_eq_some h
  rw [List.mem_filter] at hmem
  obtain ⟨h1, h2⟩ := hmem
  simp only [Bool.and_eq_true, beq_iff_eq] at h2
  exact ⟨h1, h2⟩

theorem processImage_success_data (env : FSEnv) (p : String)
    (h : (processImage env p).1.success = true) :
    ∃ d, (processImage env p).1.data = some d ∧
      (processImage env p).1.error = none := by
  unfold processImage at h ⊢
  by_cases hf : env.fileExists p
  · rw [if_pos hf] at h ⊢
    revert h
    cases (env.runScript p).bind env.parseJSON with
    | error e => intro h; cases h
    | ok d => intro h; exact ⟨d, rfl, rfl⟩
  · rw [if_neg hf] at h; cases h

theorem processImage_data_some (env : FSEnv) (p : String)
    (d : ProcessingData)
    (h : (processImage env p).1.data = some d) :
    (processImage env p).1.success = true ∧
      (processImage env p).1.error = none := by
  unfold processImage at h ⊢
  by_cases hf : env.fileExists p
  · rw [if_pos hf] at h ⊢
    revert h
    cases (env.runScript p).bind env.parseJSON with
    | error e => intro h; cases h
    | ok d' => intro h; exact ⟨rfl, rfl⟩
  · rw [if_neg hf] at h; cases h

theorem jsOrDefault_ne_empty (o : Option String) :
    jsOrDefault o "OMR processing failed" ≠ "" := by
  cases o with
  | none => decide
  | some s =>
    by_cases hs : s = ""
    · rw [jsOrDefault, if_pos hs]; decide
    · rw [jsOrDefault, if_neg hs]; exact hs

theorem extractOrder_fail_shape (r : WrapperResult)
    (h : (extractOrder r).success = false) :
    (extractOrder r).orderItems = [] ∧ (extractOrder r).omrData = none ∧
      ∃ e, (extractOrder r).error = some e ∧ e ≠ "" := by
  unfold extractOrder at h ⊢
  by_cases hs : r.success
  · rw [if_pos hs] at h ⊢
    revert h
    cases r.data with
    | none =>
      intro h
      refine ⟨rfl, rfl, _, rfl, ?_⟩
      decide
    | some d =>
      intro h
      dsimp only at h ⊢
      by_cases hds : d.success
      · rw [if_pos hds] at h; cases h
      · rw [if_neg hds]
        exact ⟨rfl, rfl, _, rfl, jsOrDefault_ne_empty r.error⟩
  · rw [if_neg hs]
    exact ⟨rfl, rfl, _, rfl, jsOrDefault_ne_empty r.error⟩

/-! Concrete inputs used in counterexamples and witnesses. -/

/-- A successful engine result whose marks list holds two selection marks
for the same item: an earlier marked one and a later unmarked one. -/
def dupSelectionData : ProcessingData :=
  { success := true
    marks := [⟨"selection", "egg", true, 1⟩,
              ⟨"selection", "egg", false, 1⟩]
    confidence := 50
    image_dimensions := (800, 600)
    total_marks_detected := 1
    marked_items := ["egg"] }

/-- A successful engine result with one selected item (quantity mark
unmarked), as in the single-filled-region scenario. -/
def singleEggData : ProcessingData :=
  { success := true
    marks := [⟨"quantity", "egg", false, mkRat 1 2⟩,
              ⟨"selection", "egg", true, mkRat 9 10⟩]
    confidence := 70
    image_dimensions := (800, 600)
    total_marks_detected := 1
    marked_items := ["egg"] }

/-- C1.  The claim quantifies over arbitrary marks lists, and fails when
an item has two selection marks: here a marked selection mark for egg
exists in the list, yet no order line for egg is emitted, because the
grouping keeps only the last selection mark, which is unmarked. -/
theorem C1_counterexample :
    (∃ m ∈ dupSelectionData.marks,
        m.item = "egg" ∧ m.type = "selection" ∧ m.isMarked = true) ∧
      ¬ ∃ l ∈ (extractOrder (okWrapper dupSelectionData)).orderItems, l.item_name = "egg" := by
  decide

/-- C1 (amended): for every successful ProcessingResult, an OrderLine for
item X is emitted iff the last Mark in the marks list with item X and type
selection has isMarked = true.  When each item carries at most one
selection mark this coincides with the original existential reading. -/
theorem C1_order_extraction_selectivity (d : ProcessingData)
    (hd : d.success = true) (X : String) :
    (∃ l ∈ (extractOrder (okWrapper d)).orderItems, l.item_name = X) ↔
      ∃ sel, lastMarkOf d.marks X "selection" = some sel ∧
        sel.isMarked = true := by
  rw [extractOrder_success d hd]
  constructor
  · rintro ⟨l, hl, hX⟩
    obtain ⟨sel, hlast, hm, _⟩ :=
      (mem_orderItems_iff d.marks X l).mp ⟨hl, hX⟩
    exact ⟨sel, hlast, hm⟩
  · rintro ⟨sel, hlast, hm⟩
    exact ⟨⟨X, 1, jsMathMin sel.confidence (quantityConfOf d.marks X)⟩,
      ((mem_orderItems_iff d.marks X _).mpr ⟨sel, hlast, hm, rfl⟩).1, rfl⟩

/-- C1 witness: the amended selectivity applied to a concrete result. -/
theorem C1_witness :
    ∃ l ∈ (extractOrder (okWrapper singleEggData)).orderItems, l.item_name = "egg" :=
  (C1_order_extraction_selectivity singleEggData rfl "egg").mpr
    ⟨⟨"selection", "egg", true, mkRat 9 10⟩, by decide, rfl⟩

/-- C2: the confidence of an emitted line is the minimum of the selection
confidence and the quantity confidence when a quantity mark is present;
with no quantity mark it is min with 1.0, hence the selection confidence
itself whenever that confidence is at most 1. -/
theorem C2_line_confidence_min (d : ProcessingData)
    (hd : d.success = true) (X : String) (sel : Mark)
    (hsel : lastMarkOf d.marks X "selection" = some sel)
    (l : OrderLine)
    (hl : l ∈ (extractOrder (okWrapper d)).orderItems)
    (hX : l.item_name = X) :
    (∀ q, lastMarkOf d.marks X "quantity" = some q →
        l.confidence = min sel.confidence q.confidence) ∧
    (lastMarkOf d.marks X "quantity" = none →
        l.confidence = min sel.confidence 1) ∧
    (lastMarkOf d.marks X "quantity" = none → sel.confidence ≤ 1 →
        l.confidence = sel.confidence) := by
  rw [extractOrder_success d hd] at hl
  obtain ⟨sel', hlast', hm', rfl⟩ :=
    (mem_orderItems_iff d.marks X l).mp ⟨hl, hX⟩
  have hss : sel' = sel := by
    rw [hsel] at hlast'
    injection hlast' with h
    exact h.symm
  subst hss
  refine ⟨?_, ?_, ?_⟩
  · intro q hq
    show jsMathMin sel'.confidence (quantityConfOf d.marks X) = _
    rw [jsMathMin_eq_min, quantityConfOf, hq]
  · intro hq
    show jsMathMin sel'.confidence (quantityConfOf d.marks X) = _
    rw [jsMathMin_eq_min, quantityConfOf, hq]
  · intro hq hle
    show jsMathMin sel'.confidence (quantityConfOf d.marks X) = _
    rw [jsMathMin_eq_min, quantityConfOf, hq]
    exact min_eq_left hle

/-- C2 witness: the confidence rule applied to a concrete result, for the
case with a quantity mark present. -/
theorem C2_witness :
    (extractOrder (okWrapper singleEggData)).orderItems =
        [⟨"egg", 1, mkRat 1 2⟩] ∧
      (⟨"egg", 1, mkRat 1 2⟩ : OrderLine).confidence =
        min (mkRat 9 10) (mkRat 1 2) := by
  refine ⟨by decide, ?_⟩
  have h := (C2_line_confidence_min singleEggData rfl "egg"
      ⟨"selection", "egg", true, mkRat 9 10⟩ (by decide)
      ⟨"egg", 1, mkRat 1 2⟩ (by decide) rfl).1
      ⟨"quantity", "egg", false, mkRat 1 2⟩ (by decide)
  exact h

/-- Engine result with a marked quantity checkbox next to the selected
item. -/
def qtyOnData : ProcessingData :=
  { success := true
    marks := [⟨"quantity", "egg", true, mkRat 1 2⟩,
              ⟨"selection", "egg", true, 1⟩]
    confidence := 70
    image_dimensions := (800, 600)
    total_marks_detected := 2
    marked_items := ["egg"] }

/-- The same result with the quantity checkbox not marked. -/
def qtyOffData : ProcessingData :=
  { success := true
    marks := [⟨"quantity", "egg", false, mkRat 1 2⟩,
              ⟨"selection", "egg", true, 1⟩]
    confidence := 70
    image_dimensions := (800, 600)
    total_marks_detected := 1
    marked_items := ["egg"] }

/-- C3: every emitted order line has quantity exactly 1, and two
successful results whose marks differ only in the isMarked flags of
quantity-type marks yield order lines with identical item_name and
quantity values. -/
theorem C3_quantity_always_one :
    (∀ d : ProcessingData, d.success = true →
      ∀ l ∈ (extractOrder (okWrapper d)).orderItems, l.quantity = 1) ∧
    (∀ d d' : ProcessingData, d.success = true → d'.success = true →
      SameButQtyFlags d.marks d'.marks →
      (extractOrder (okWrapper d)).orderItems.map
          (fun l => (l.item_name, l.quantity)) =
        (extractOrder (okWrapper d')).orderItems.map
          (fun l => (l.item_name, l.quantity))) := by
  constructor
  · intro d hd l hl
    rw [extractOrder_success d hd] at hl
    exact quantity_of_mem_extractLines _ _ hl
  · intro d d' hd hd' hrel
    rw [extractOrder_success d hd, extractOrder_success d' hd']
    exact extractLines_rel _ _ (groupMarks_rel _ _ hrel)

/-- C3 witness: quantity is 1 for a concrete result, and flipping the
quantity flag leaves item_name and quantity unchanged. -/
theorem C3_witness :
    (∀ l ∈ (extractOrder (okWrapper qtyOnData)).orderItems,
        l.quantity = 1) ∧
      (extractOrder (okWrapper qtyOnData)).orderItems.map
          (fun l => (l.item_name, l.quantity)) =
        (extractOrder (okWrapper qtyOffData)).orderItems.map
          (fun l => (l.item_name, l.quantity)) :=
  ⟨C3_quantity_always_one.1 qtyOnData rfl,
   C3_quantity_always_one.2 qtyOnData qtyOffData rfl rfl
     (List.Forall₂.cons ⟨rfl, rfl, rfl, fun h => absurd rfl h⟩
       (List.Forall₂.cons ⟨rfl, rfl, rfl, fun _ => rfl⟩
         List.Forall₂.nil))⟩

theorem wrapper_eq (r : WrapperResult) (d : ProcessingData)
    (h1 : r.success = true) (h2 : r.data = some d) (h3 : r.error = none) :
    r = okWrapper d := by
  obtain ⟨a, b, c⟩ := r
  simp only at h1 h2 h3
  rw [okWrapper, h1, h2, h3]

theorem extractOrder_data_fail (d : ProcessingData)
    (hd : d.success = false) :
    extractOrder (okWrapper d) =
      { success := false, orderItems := [], omrData := none
        error := some "OMR processing failed" } := by
  unfold extractOrder okWrapper
  rw [if_pos rfl]
  dsimp only
  rw [hd, if_neg Bool.false_ne_true]
  rfl

theorem extractOrder_fail (r : WrapperResult) (hr : r.success = false) :
    extractOrder r =
      { success := false, orderItems := [], omrData := none
        error := some (jsOrDefault r.error "OMR processing failed") } := by
  unfold extractOrder
  rw [hr, if_neg Bool.false_ne_true]

/-- C4: the order-building call fails exactly when the upstream processing
was unsuccessful (the wrapper failed or the parsed engine data reports
success = false); items lacking a marked selection mark are silently
omitted and never make the call fail. -/
theorem C4_fail_iff_upstream :
    (∀ (env : FSEnv) (p : String),
      (extractOrderFromOMR env p).1.success = false ↔
        ((processImage env p).1.success = false ∨
          ∃ d, (processImage env p).1.data = some d ∧
            d.success = false)) ∧
    (∀ d : ProcessingData, d.success = true → ∀ X : String,
      (∀ m ∈ d.marks, m.item = X → m.type = "selection" →
          m.isMarked = false) →
      (extractOrder (okWrapper d)).success = true ∧
        ¬ ∃ l ∈ (extractOrder (okWrapper d)).orderItems,
            l.item_name = X) := by
  constructor
  · intro env p
    unfold extractOrderFromOMR
    constructor
    · intro h
      by_cases hs : (processImage env p).1.success
      · obtain ⟨d, hd, herr⟩ := processImage_success_data env p hs
        right
        refine ⟨d, hd, ?_⟩
        by_cases hds : d.success
        · exfalso
          rw [wrapper_eq _ d hs hd herr, extractOrder_success d hds] at h
          cases h
        · simpa using hds
      · left
        simpa using hs
    · intro h
      rcases h with h | ⟨d, hd, hds⟩
      · rw [extractOrder_fail _ (by simpa using h)]
      · have hok := processImage_data_some env p d hd
        rw [wrapper_eq _ d hok.1 hd hok.2, extractOrder_data_fail d hds]
  · intro d hd X hall
    rw [extractOrder_success d hd]
    refine ⟨rfl, ?_⟩
    rintro ⟨l, hl, hX⟩
    obtain ⟨sel, hlast, hm, _⟩ := (mem_orderItems_iff d.marks X l).mp ⟨hl, hX⟩
    obtain ⟨hmem, hitem, htype⟩ := lastMarkOf_mem d.marks X "selection" sel hlast
    rw [hall sel hmem hitem htype] at hm
    cases hm

/-- C4 witness: the failure criterion at a concrete environment whose
engine reports an unsuccessful run, and silent omission on a blank form. -/
def badData : ProcessingData :=
  { success := false
    marks := []
    confidence := 0
    image_dimensions := (0, 0)
    total_marks_detected := 0
    marked_items := [] }

/-- A successful engine result with no marks at all (blank form). -/
def blankData : ProcessingData :=
  { success := true
    marks := []
    confidence := 90
    image_dimensions := (800, 600)
    total_marks_detected := 0
    marked_items := [] }

/-- Environment in which no file exists. -/
def envMissing : FSEnv :=
  { fileExists := fun _ => false
    runScript := fun _ => .error ""
    parseJSON := fun _ => .error "" }

/-- Environment in which the engine runs but reports failure in its own
JSON. -/
def envBadData : FSEnv :=
  { fileExists := fun _ => true
    runScript := fun _ => .ok "out"
    parseJSON := fun _ => .ok badData }

theorem C4_witness :
    ((extractOrderFromOMR envBadData "scan.jpg").1.success = false ↔
      ((processImage envBadData "scan.jpg").1.success = false ∨
        ∃ d, (processImage envBadData "scan.jpg").1.data = some d ∧
          d.success = false)) ∧
    ((extractOrder (okWrapper blankData)).success = true ∧
      ¬ ∃ l ∈ (extractOrder (okWrapper blankData)).orderItems,
          l.item_name = "egg") :=
  ⟨C4_fail_iff_upstream.1 envBadData "scan.jpg",
   C4_fail_iff_upstream.2 blankData rfl "egg" (by decide)⟩

/-- C5: whenever the order-building call fails, it returns the empty
order list and a null omrData: no partial order data accompanies a
failure. -/
theorem C5_no_partial_on_failure (env : FSEnv) (p : String)
    (h : (extractOrderFromOMR env p).1.success = false) :
    (extractOrderFromOMR env p).1.orderItems = [] ∧
      (extractOrderFromOMR env p).1.omrData = none := by
  unfold extractOrderFromOMR at h ⊢
  obtain ⟨h1, h2, _⟩ := extractOrder_fail_shape _ h
  exact ⟨h1, h2⟩

theorem C5_witness :
    (extractOrderFromOMR envMissing "scan.jpg").1.orderItems = [] ∧
      (extractOrderFromOMR envMissing "scan.jpg").1.omrData = none :=
  C5_no_partial_on_failure envMissing "scan.jpg" (by decide)

/-- C6: invoking the wrapper on a path that does not exist yields a
result object with success = false and a non-empty error string; the
embedding is a total function, so no exception escapes the wrapper. -/
theorem C6_missing_file_safe (env : FSEnv) (p : String)
    (h : env.fileExists p = false) :
    (processImage env p).1.success = false ∧
      (processImage env p).1.error = some (accessErrorMessage p) ∧
      (accessErrorMessage p).length > 0 := by
  unfold processImage
  rw [if_neg (by rw [h]; exact Bool.false_ne_true)]
  refine ⟨rfl, rfl, ?_⟩
  rw [accessErrorMessage, String.length_append]
  have h42 : ("ENOENT: no such file or directory, access ").length = 42 :=
    rfl
  rw [h42]
  omega

theorem C6_witness :
    (processImage envMissing "scan.jpg").1.success = false ∧
      (processImage envMissing "scan.jpg").1.error =
        some (accessErrorMessage "scan.jpg") ∧
      (accessErrorMessage "scan.jpg").length > 0 :=
  C6_missing_file_safe envMissing "scan.jpg" rfl

/-- Marks whose per-mark confidences are all 0.8, so that the aggregate
(0-100 scale) confidence is 80. -/
def uniformMarks : List Mark :=
  [⟨"selection", "egg", true, 4/5⟩, ⟨"quantity", "egg", false, 4/5⟩]

theorem ratFloor_eq_intFloor (q : ℚ) : q.floor = ⌊q⌋ := by
  rw [Rat.floor_def', ← Rat.floor_def]

/-- C7: the aggregate confidence is on a 0-100 scale (here 80 for marks of
confidence 0.8 each), but the frontend showResults rescales it again by
100 before display, so a result of 80 is shown as 8000 percent: the two
scales are mixed, contradicting the claim. -/
theorem C7_confidence_scale_mixed :
    aggregateConfidence uniformMarks = 80 ∧
      confidencePercent (aggregateConfidence uniformMarks) = 8000 ∧
      confidencePercent (aggregateConfidence uniformMarks) ≠ 80 := by
  have h1 : aggregateConfidence uniformMarks = 80 := by
    unfold aggregateConfidence uniformMarks
    norm_num
  have h2 : confidencePercent (aggregateConfidence uniformMarks) = 8000 := by
    rw [h1]
    unfold confidencePercent jsMathRound
    rw [ratFloor_eq_intFloor]
    norm_num [Int.floor_eq_iff]
  refine ⟨h1, h2, ?_⟩
  rw [h2]
  decide

/-- C8: the engine wrapper performs no deletion: its effect trace never
holds an unlink; when processing fails the route handler deletes the
uploaded file and answers with success = false. -/
theorem C8_cleanup_ownership :
    (∀ (env : FSEnv) (p q : String),
        FSEffect.unlink q ∉ (processImage env p).2) ∧
    (∀ (env : FSEnv) (p q : String),
        FSEffect.unlink q ∉ (extractOrderFromOMR env p).2) ∧
    (∀ (env : FSEnv) (p : String),
        (processImage env p).1.success = false →
        (omrProcessRoute true env p).1.success = false ∧
          FSEffect.unlink p ∈ (omrProcessRoute true env p).2) := by
  have h1 : ∀ (env : FSEnv) (p q : String),
      FSEffect.unlink q ∉ (processImage env p).2 := by
    intro env p q
    unfold processImage
    by_cases hf : env.fileExists p
    · rw [if_pos hf]
      simp
    · rw [if_neg hf]
      simp
  refine ⟨h1, ?_, ?_⟩
  · intro env p q
    unfold extractOrderFromOMR
    exact h1 env p q
  · intro env p hfail
    unfold omrProcessRoute
    rw [if_pos rfl]
    dsimp only
    rw [if_neg (by rw [hfail]; exact Bool.false_ne_true)]
    exact ⟨rfl, by simp⟩

theorem C8_witness :
    (omrProcessRoute true envMissing "scan.jpg").1.success = false ∧
      FSEffect.unlink "scan.jpg" ∈
        (omrProcessRoute true envMissing "scan.jpg").2 :=
  C8_cleanup_ownership.2.2 envMissing "scan.jpg" (by decide)

/-- A successful result whose marks list starts with an unmarked earlier
duplicate of the selection mark of item a. -/
def dupAheadData : ProcessingData :=
  { success := true
    marks := [⟨"selection", "a", false, 1⟩, ⟨"selection", "b", true, 1⟩,
              ⟨"selection", "a", true, 1⟩]
    confidence := 50
    image_dimensions := (800, 600)
    total_marks_detected := 2
    marked_items := ["a", "b"] }

/-- The same result with the earlier duplicate removed. -/
def noDupData : ProcessingData :=
  { success := true
    marks := [⟨"selection", "b", true, 1⟩, ⟨"selection", "a", true, 1⟩]
    confidence := 50
    image_dimensions := (800, 600)
    total_marks_detected := 2
    marked_items := ["a", "b"] }

/-- C9.  An earlier duplicate does have one observable effect: the first
occurrence of an item fixes the position of its group in insertion order,
so removing an overwritten earlier duplicate can reorder the emitted
lines.  Here the outputs with and without the earlier duplicate differ as
lists (the same two lines in swapped order). -/
theorem C9_counterexample :
    (extractOrder (okWrapper dupAheadData)).orderItems ≠
      (extractOrder (okWrapper noDupData)).orderItems := by
  decide

/-- C9 (amended): the grouping step keeps exactly the last mark of each
(item, type) pair, and both whether a line for item X exists and all its
field values are determined by the last selection and quantity marks of X
alone; an earlier duplicate influences at most the position of the line
in the output list. -/
theorem C9_last_mark_wins (marks : List Mark) (X : String)
    (l : OrderLine) :
    (groupSlot marks X "selection" = lastMarkOf marks X "selection" ∧
      groupSlot marks X "quantity" = lastMarkOf marks X "quantity") ∧
    ((l ∈ extractLines (groupMarks marks) ∧ l.item_name = X) ↔
      ∃ sel, lastMarkOf marks X "selection" = some sel ∧
        sel.isMarked = true ∧
        l = ⟨X, 1, jsMathMin sel.confidence (quantityConfOf marks X)⟩) :=
  ⟨⟨groupSlot_eq_lastMarkOf marks X _ (Or.inr rfl),
    groupSlot_eq_lastMarkOf marks X _ (Or.inl rfl)⟩,
   mem_orderItems_iff marks X l⟩

/-- C10: a failed order-building call always carries a non-empty error
string, and when the upstream wrapper succeeded but the engine data says
success = false (so no upstream error message exists), the fallback
message is substituted. -/
theorem C10_fallback_error_message :
    (∀ (env : FSEnv) (p : String),
        (extractOrderFromOMR env p).1.success = false →
        ∃ e, (extractOrderFromOMR env p).1.error = some e ∧ e ≠ "") ∧
    (∀ (env : FSEnv) (p : String) (d : ProcessingData),
        (processImage env p).1.data = some d → d.success = false →
        (extractOrderFromOMR env p).1.error =
          some "OMR processing failed") := by
  constructor
  · intro env p h
    unfold extractOrderFromOMR at h ⊢
    obtain ⟨_, _, he⟩ := extractOrder_fail_shape _ h
    exact he
  · intro env p d hd hds
    unfold extractOrderFromOMR
    have hok := processImage_data_some env p d hd
    rw [wrapper_eq _ d hok.1 hd hok.2, extractOrder_data_fail d hds]

theorem C10_witness :
    (∃ e, (extractOrderFromOMR envBadData "scan.jpg").1.error = some e ∧
        e ≠ "") ∧
      (extractOrderFromOMR envBadData "scan.jpg").1.error =
        some "OMR processing failed" :=
  ⟨C10_fallback_error_message.1 envBadData "scan.jpg" (by decide),
   C10_fallback_error_message.2 envBadData "scan.jpg" badData
     (by decide) rfl⟩
